import Mathlib

/-!
Verification of the MCP-Styles repository: a design-standards MCP server
(`src/server.ts`) and an event-information MCP server (the compiled stdio
server). JavaScript strings are modelled as lists of code points
(`JStr := List Nat`), matching the code-unit view that the JS regexes and
string methods operate on; the data handled by the servers is ASCII.
JSON values (the design-token document) are modelled by the mutual
inductive `JVal`/`JArr`/`JObj`.
-/

/-- A JavaScript string, as its list of code points. -/
abbrev JStr : Type := List Nat

/-- Embed a Lean string literal as a `JStr`. -/
def str (s : String) : JStr := s.toList.map Char.toNat

/-- ASCII case folding of one code point, as performed by
`String.prototype.toLowerCase` on the ASCII range. -/
def lowerCp (n : Nat) : Nat := if 65 ≤ n ∧ n ≤ 90 then n + 32 else n

/-- `toLowerCase` on a whole string. -/
def lowerStr (s : JStr) : JStr := s.map lowerCp

/-- `s.includes(sub)`: substring containment, as in JavaScript. -/
def includesB (s sub : JStr) : Bool :=
  sub.isPrefixOf s ||
    match s with
    | [] => false
    | _ :: t => includesB t sub

/-- `Array.prototype.flatten(".")` on a list of path components. -/
def joinDot (parts : List JStr) : JStr := List.intercalate (str (".")) parts

/-- Decimal rendering of a natural number (JS array-index keys). -/
def natToStr (n : Nat) : JStr := (Nat.toDigits 10 n).map Char.toNat

theorem isPrefixOf_eq_true_iff (p s : JStr) :
    p.isPrefixOf s = true ↔ ∃ r, s = p ++ r := by
  induction p generalizing s with
  | nil => simp [List.isPrefixOf]
  | cons c p ih =>
    cases s with
    | nil => simp [List.isPrefixOf]
    | cons d t =>
      simp only [List.isPrefixOf, Bool.and_eq_true, beq_iff_eq, ih]
      constructor
      · rintro ⟨rfl, r, rfl⟩; exact ⟨r, rfl⟩
      · rintro ⟨r, h⟩
        injection h with h1 h2
        exact ⟨h1.symm, r, h2⟩

theorem includesB_eq_true_iff (s sub : JStr) :
    includesB s sub = true ↔ ∃ a b, s = a ++ sub ++ b := by
  induction s with
  | nil =>
    rw [includesB]
    simp only [Bool.or_false, isPrefixOf_eq_true_iff]
    constructor
    · rintro ⟨r, h⟩
      exact ⟨[], r, by simpa using h⟩
    · rintro ⟨a, b, h⟩
      have ha : a = [] := by
        cases a with
        | nil => rfl
        | cons x xs => simp at h
      subst ha
      exact ⟨b, by simpa using h⟩
  | cons c t ih =>
    rw [includesB]
    simp only [Bool.or_eq_true, isPrefixOf_eq_true_iff, ih]
    constructor
    · rintro (⟨r, h⟩ | ⟨a, b, h⟩)
      · exact ⟨[], r, by simpa using h⟩
      · exact ⟨c :: a, b, by simp [h]⟩
    · rintro ⟨a, b, h⟩
      cases a with
      | nil => exact Or.inl ⟨b, by simpa using h⟩
      | cons x xs =>
        injection h with h1 h2
        exact Or.inr ⟨xs, b, h2⟩

theorem mem_of_includesB {s sub : JStr} (h : includesB s sub = true)
    {x : Nat} (hx : x ∈ sub) : x ∈ s := by
  obtain ⟨a, b, rfl⟩ := (includesB_eq_true_iff s sub).mp h
  simp [hx]

theorem includesB_of_isPrefixOf {s sub : JStr} (h : sub.isPrefixOf s = true) :
    includesB s sub = true := by
  obtain ⟨r, rfl⟩ := (isPrefixOf_eq_true_iff sub s).mp h
  exact (includesB_eq_true_iff _ _).mpr ⟨[], r, by simp⟩

theorem lowerStr_not_upper {c : Nat} {s : JStr} (h : c ∈ lowerStr s) :
    ¬(65 ≤ c ∧ c ≤ 90) := by
  obtain ⟨d, _, rfl⟩ := List.mem_map.mp h
  unfold lowerCp
  split <;> omega

/-! ## JSON values (the design-token document loaded from Designstandards.json) -/

mutual
/-- A JavaScript value as occurring in the design-token document, plus
`undefined` for the result of indexing an absent property. -/
inductive JVal : Type where
  | str (s : JStr)
  | num (n : Int)
  | bool (b : Bool)
  | null
  | undefined
  | arr (xs : JArr)
  | obj (fs : JObj)
inductive JArr : Type where
  | nil
  | cons (v : JVal) (rest : JArr)
inductive JObj : Type where
  | nil
  | cons (k : JStr) (v : JVal) (rest : JObj)
end

/-- Own-property lookup (first binding wins), `o[k]`. -/
def JObj.lookup : JObj → JStr → Option JVal
  | .nil, _ => none
  | .cons k v rest, key => if k = key then some v else rest.lookup key

/-- The fields of an object, in declaration order. -/
def JObj.toList : JObj → List (JStr × JVal)
  | .nil => []
  | .cons k v rest => (k, v) :: rest.toList

/-- `o[k]` as a JS expression: `undefined` when the property is absent. -/
def jsIndex (o : JObj) (k : JStr) : JVal := (o.lookup k).getD .undefined

/-- JS truthiness of a value. -/
def jsTruthy : JVal → Bool
  | .str s => !s.isEmpty
  | .num n => n != 0
  | .bool b => b
  | .null => false
  | .undefined => false
  | .arr _ => true
  | .obj _ => true

/-- `typeof v === "object"` (true for objects, arrays and `null`). -/
def JVal.typeofObject : JVal → Bool
  | .obj _ => true
  | .arr _ => true
  | .null => true
  | _ => false

/-- `typeof v === "string"`. -/
def JVal.isStringV : JVal → Bool
  | .str _ => true
  | _ => false

/-- `v === null`. -/
def JVal.isNullV : JVal → Bool
  | .null => true
  | _ => false

/-- The payload of a string value (`[]` otherwise). -/
def JVal.getStr : JVal → JStr
  | .str s => s
  | _ => []

/-- Property access `v.k` on an arbitrary value: object lookup, otherwise
`undefined` (the servers only ever reach this on objects or primitives
without the property). -/
def jget : JVal → JStr → JVal
  | .obj fs, k => jsIndex fs k
  | _, _ => .undefined

/-- `"k" in v` for the own-property check used by `generateComponentCSS`. -/
def jsHasKey : JVal → JStr → Bool
  | .obj fs, k => (fs.lookup k).isSome
  | _, _ => false

/-- Decimal rendering of an integer. -/
def intToStr (n : Int) : JStr :=
  if n < 0 then 45 :: natToStr (-n).toNat else natToStr n.toNat

mutual
/-- JS `String(v)` coercion as used by template literals. -/
def jsToString : JVal → JStr
  | .str s => s
  | .num n => intToStr n
  | .bool b => if b then str ("true") else str ("false")
  | .null => str ("null")
  | .undefined => str ("undefined")
  | .obj _ => str ("[object Object]")
  | .arr xs => arrToStr xs
/-- `Array.prototype.toString`: elements joined with commas, `null` and
`undefined` elements rendered empty. -/
def arrToStr : JArr → JStr
  | .nil => []
  | .cons v .nil => arrElemStr v
  | .cons v rest => arrElemStr v ++ (44 : Nat) :: arrToStr rest
/-- One array element under `Array.prototype.toString`. -/
def arrElemStr : JVal → JStr
  | .null => []
  | .undefined => []
  | v => jsToString v
end

/-- `Object.entries` on an array, keys being decimal indices. -/
def arrEntriesFrom (i : Nat) : JArr → List (JStr × JVal)
  | .nil => []
  | .cons v rest => (natToStr i, v) :: arrEntriesFrom (i + 1) rest

/-- `Object.entries` on a string, keys being decimal indices and values
one-character strings. -/
def strEntriesFrom (i : Nat) : JStr → List (JStr × JVal)
  | [] => []
  | c :: rest => (natToStr i, .str [c]) :: strEntriesFrom (i + 1) rest

/-- `Object.entries(v)` with its failure mode: on `null` and `undefined`
it throws a TypeError (modelled as `none`); otherwise it returns the
fields for objects, indexed entries for arrays and strings, and nothing
for the remaining primitives. -/
def jsEntriesE : JVal → Option (List (JStr × JVal))
  | .null => none
  | .undefined => none
  | .obj fs => some fs.toList
  | .arr xs => some (arrEntriesFrom 0 xs)
  | .str s => some (strEntriesFrom 0 s)
  | _ => some []

/-- `Object.entries(v)` at call sites where the source has already
guarded `v` against `null`/`undefined` (a truthiness or
`typeof v === "object" && v !== null` check), so the TypeError of
`jsEntriesE` cannot fire. -/
def jsEntries (v : JVal) : List (JStr × JVal) := (jsEntriesE v).getD []

/-! ## searchDesignStandards (src/server.ts, lines 107-145) -/

/-- One match record pushed by `searchDesignStandards`:
`{ path: pathString, key, value }`. -/
structure SRecord : Type where
  path : JStr
  key : JStr
  value : JVal

/-- The key/path test of `searchDesignStandards`:
`searchKey.includes(searchTerm) || pathString.toLowerCase().includes(searchTerm)`,
where `searchKey` is the key case-folded only when `caseSensitive` is false,
while the dotted path is always lower-cased. `term` is the already-folded
search term. -/
def matchesKeyOrPath (caseSensitive : Bool) (term : JStr) (path : List JStr)
    (k : JStr) : Bool :=
  includesB (if caseSensitive then k else lowerStr k) term ||
    includesB (lowerStr (joinDot (path ++ [k]))) term

/-- The string-value test: fires only on string values,
`searchValue.includes(searchTerm)`. -/
def valueIsMatch (caseSensitive : Bool) (term : JStr) : JVal → Bool
  | .str s => includesB (if caseSensitive then s else lowerStr s) term
  | _ => false

/-- The records pushed for a single `(key, value)` entry: one for the
key/path test and, independently, one for the string-value test. -/
def nodeRecords (caseSensitive : Bool) (term : JStr) (path : List JStr)
    (k : JStr) (v : JVal) : List SRecord :=
  (if matchesKeyOrPath caseSensitive term path k then
     [⟨joinDot (path ++ [k]), k, v⟩] else []) ++
  (if valueIsMatch caseSensitive term v then
     [⟨joinDot (path ++ [k]), k, v⟩] else [])

mutual
/-- Recursive walk of `searchObject` on a value: recursion happens exactly
for non-null objects (including arrays), as in
`typeof value === "object" && value !== null`. -/
def searchVal (caseSensitive : Bool) (term : JStr) (path : List JStr) :
    JVal → List SRecord
  | .obj fs => searchObjFields caseSensitive term path fs
  | .arr xs => searchArrFrom caseSensitive term path 0 xs
  | _ => []
/-- `searchObject` over the entries of an object, in declaration order:
per-entry records, then the subtree, then the remaining siblings. -/
def searchObjFields (caseSensitive : Bool) (term : JStr) (path : List JStr) :
    JObj → List SRecord
  | .nil => []
  | .cons k v rest =>
    nodeRecords caseSensitive term path k v ++
      searchVal caseSensitive term (path ++ [k]) v ++
      searchObjFields caseSensitive term path rest
/-- `searchObject` over the entries of an array (`Object.entries` gives
decimal index keys). -/
def searchArrFrom (caseSensitive : Bool) (term : JStr) (path : List JStr)
    (i : Nat) : JArr → List SRecord
  | .nil => []
  | .cons v rest =>
    nodeRecords caseSensitive term path (natToStr i) v ++
      searchVal caseSensitive term (path ++ [natToStr i]) v ++
      searchArrFrom caseSensitive term path (i + 1) rest
end

/-- `searchDesignStandards(query, caseSensitive)`: fold the query unless
case-sensitive, then walk the document from the root with an empty path. -/
def searchDesignStandards (doc : JObj) (query : JStr) (caseSensitive : Bool) :
    List SRecord :=
  searchObjFields caseSensitive (if caseSensitive then query else lowerStr query)
    [] doc

/-! ## parseSitemap (event server, `/<loc>(.*?)<\/loc>/g` exec loop) -/

/-- The literal `<loc>`. -/
def locOpen : JStr := str ("<loc>")

/-- The literal `</loc>`. -/
def locClose : JStr := str ("</loc>")

/-- Whether a code point is matched by the regex `.` (dot) without the `s`
flag: everything except `\n`, `\r`, U+2028 and U+2029. -/
def jsDot (n : Nat) : Bool := !(n == 10 || n == 13 || n == 8232 || n == 8233)

/-- The lazy tail of the match `(.*?)<\/loc>`: scan for the first `</loc>`,
requiring every consumed content character to match `.`; returns the
captured content and the remainder after `</loc>`. -/
def findLocEnd (acc : JStr) : JStr → Option (JStr × JStr)
  | [] => if locClose.isPrefixOf ([] : JStr) then some (acc.reverse, []) else none
  | c :: rest =>
    if locClose.isPrefixOf (c :: rest) then
      some (acc.reverse, (c :: rest).drop 6)
    else if jsDot c then findLocEnd (c :: acc) rest
    else none

/-- One `regex.exec` sweep: at each position try to match
`<loc>(.*?)<\/loc>`; on success emit the capture and resume after the
match (the regex engine's `lastIndex`), otherwise advance one position.
The fuel argument is an upper bound on the number of positions and is
always instantiated with the input length. -/
def scanLocsF : Nat → JStr → List JStr
  | 0, _ => []
  | _ + 1, [] => []
  | fuel + 1, c :: rest =>
    if locOpen.isPrefixOf (c :: rest) then
      match findLocEnd [] ((c :: rest).drop 5) with
      | some (content, rem) => content :: scanLocsF fuel rem
      | none => scanLocsF fuel rest
    else scanLocsF fuel rest

/-- `parseSitemap(xml)`: all captures of `/<loc>(.*?)<\/loc>/g` in order. -/
def parseSitemap (xml : JStr) : List JStr := scanLocsF xml.length xml

theorem findLocEnd_length_le (acc : JStr) :
    ∀ s content rem, findLocEnd acc s = some (content, rem) →
      rem.length ≤ s.length := by
  intro s
  induction s generalizing acc with
  | nil => intro content rem h; simp [findLocEnd, List.isPrefixOf] at h
  | cons c rest ih =>
    intro content rem h
    rw [findLocEnd] at h
    split at h
    · simp only [Option.some.injEq, Prod.mk.injEq] at h
      have := h.2
      subst this
      have hd := List.length_drop 6 (c :: rest)
      simp only [List.length_cons] at hd ⊢
      omega
    · split at h
      · have := ih (c :: acc) content rem h
        simpa using Nat.le_succ_of_le this
      · exact absurd h (by simp)

theorem locOpen_eq : locOpen = [60, 108, 111, 99, 62] := by decide

theorem locClose_eq : locClose = [60, 47, 108, 111, 99, 62] := by decide

/-- If a pattern `P` has no self-overlap (no nonempty proper border) and
does not occur in `g`, then `P` is not a prefix of `g ++ P ++ t` unless
`g` is empty: an occurrence of `P` cannot straddle the boundary. -/
theorem eq_nil_of_isPrefixOf_gap (P g t : JStr)
    (hnb : ∀ k, 1 ≤ k → k < P.length → P.drop k ≠ P.take (P.length - k))
    (hg : includesB g P = false)
    (hpre : P.isPrefixOf (g ++ (P ++ t)) = true) : g = [] := by
  by_contra hne
  obtain ⟨r, hr⟩ := (isPrefixOf_eq_true_iff _ _).mp hpre
  have hn : 1 ≤ g.length := by
    cases g with
    | nil => exact absurd rfl hne
    | cons x xs => simp
  have h1 : P <+: g ++ (P ++ t) := ⟨r, hr.symm⟩
  have h2 : g <+: g ++ (P ++ t) := ⟨P ++ t, rfl⟩
  by_cases hcmp : P.length ≤ g.length
  · -- the whole occurrence lies inside g, contradicting hg
    obtain ⟨d, hd⟩ := List.prefix_of_prefix_length_le h1 h2 hcmp
    have : includesB g P = true :=
      (includesB_eq_true_iff _ _).mpr ⟨[], d, by simpa using hd.symm⟩
    rw [this] at hg
    exact absurd hg (by simp)
  · -- g is a strict prefix of P, forcing a self-overlap of P
    push_neg at hcmp
    obtain ⟨d, hd⟩ := List.prefix_of_prefix_length_le h2 h1 (Nat.le_of_lt hcmp)
    have hdlen : d.length = P.length - g.length := by
      have := congrArg List.length hd
      simp only [List.length_append] at this
      omega
    have hPt : (g ++ d) ++ t = d ++ r := by
      have : g ++ ((g ++ d) ++ t) = g ++ (d ++ r) := by
        rw [hd, hr, ← hd]
        simp
      exact List.append_cancel_left this
    have h3 : d <+: P ++ t := by
      refine ⟨r, ?_⟩
      rw [← hPt, hd]
    have h4 : P <+: P ++ t := ⟨t, rfl⟩
    have h5 : d <+: P :=
      List.prefix_of_prefix_length_le h3 h4 (by omega)
    have h6 : d = P.take d.length := List.prefix_iff_eq_take.mp h5
    have h7 : P.drop g.length = d := by
      have hdp : d = P.drop g.length := by
        have := congrArg (List.drop g.length) hd
        simpa using this
      exact hdp.symm
    exact hnb g.length hn hcmp (by rw [h7, h6, hdlen])

/-- `<loc>` has no nonempty proper border. -/
theorem locOpen_noBorder :
    ∀ k, 1 ≤ k → k < locOpen.length →
      locOpen.drop k ≠ locOpen.take (locOpen.length - k) := by
  intro k h1 h2
  have h5 : locOpen.length = 5 := by decide
  rw [h5] at h2 ⊢
  interval_cases k <;> decide

/-- `</loc>` has no nonempty proper border. -/
theorem locClose_noBorder :
    ∀ k, 1 ≤ k → k < locClose.length →
      locClose.drop k ≠ locClose.take (locClose.length - k) := by
  intro k h1 h2
  have h6 : locClose.length = 6 := by decide
  rw [h6] at h2 ⊢
  interval_cases k <;> decide

theorem isPrefixOf_gap_false (P g t : JStr)
    (hnb : ∀ k, 1 ≤ k → k < P.length → P.drop k ≠ P.take (P.length - k))
    (hg : includesB g P = false) (hne : g ≠ []) :
    P.isPrefixOf (g ++ (P ++ t)) = false := by
  cases h : P.isPrefixOf (g ++ (P ++ t)) with
  | false => rfl
  | true => exact absurd (eq_nil_of_isPrefixOf_gap P g t hnb hg h) hne

theorem scanLocsF_no_open (fuel : Nat) :
    ∀ s : JStr, s.length ≤ fuel → includesB s locOpen = false →
      scanLocsF fuel s = [] := by
  induction fuel with
  | zero => intro s _ _; rfl
  | succ fuel ih =>
    intro s hl h
    cases s with
    | nil => rfl
    | cons c rest =>
      rw [includesB] at h
      simp only [Bool.or_eq_false_iff] at h
      rw [scanLocsF, if_neg (by simp [h.1])]
      exact ih rest (by simp only [List.length_cons] at hl; omega) h.2

theorem scanLocsF_skip_gap :
    ∀ (g : JStr) (fuel : Nat) (t : JStr),
      g.length + t.length ≤ fuel → includesB g locOpen = false →
      locOpen.isPrefixOf t = true →
      scanLocsF fuel (g ++ t) = scanLocsF (fuel - g.length) t := by
  intro g
  induction g with
  | nil => intro fuel t _ _ _; simp
  | cons a g' ih =>
    intro fuel t hl hg hp
    obtain ⟨fuel', rfl⟩ : ∃ f', fuel = f' + 1 :=
      ⟨fuel - 1, by simp only [List.length_cons] at hl; omega⟩
    obtain ⟨t', rfl⟩ := (isPrefixOf_eq_true_iff _ _).mp hp
    have hfalse : locOpen.isPrefixOf ((a :: g') ++ (locOpen ++ t')) = false :=
      isPrefixOf_gap_false locOpen (a :: g') t' locOpen_noBorder hg (by simp)
    rw [includesB] at hg
    simp only [Bool.or_eq_false_iff] at hg
    rw [List.cons_append, scanLocsF,
      if_neg (by simp only [List.cons_append] at hfalse; simp [hfalse])]
    rw [ih fuel' (locOpen ++ t')
      (by simp only [List.length_cons] at hl; omega) hg.2
      ((isPrefixOf_eq_true_iff _ _).mpr ⟨t', rfl⟩)]
    congr 1
    simp only [List.length_cons]
    omega

theorem findLocEnd_complete :
    ∀ (c acc rest : JStr),
      includesB c locClose = false → (∀ x ∈ c, jsDot x = true) →
      findLocEnd acc (c ++ (locClose ++ rest)) = some (acc.reverse ++ c, rest) := by
  intro c
  induction c with
  | nil =>
    intro acc rest _ _
    simp only [List.nil_append]
    rw [show locClose ++ rest = 60 :: (47 :: 108 :: 111 :: 99 :: 62 :: rest) by
      simp [locClose_eq]]
    rw [findLocEnd,
      if_pos ((isPrefixOf_eq_true_iff _ _).mpr ⟨rest, by simp [locClose_eq]⟩)]
    simp
  | cons ch c' ih =>
    intro acc rest hc hdot
    rw [includesB] at hc
    simp only [Bool.or_eq_false_iff] at hc
    have hfalse : locClose.isPrefixOf ((ch :: c') ++ (locClose ++ rest)) = false :=
      isPrefixOf_gap_false locClose (ch :: c') rest locClose_noBorder
        (by rw [includesB]; simp [hc.1, hc.2]) (by simp)
    rw [List.cons_append, findLocEnd,
      if_neg (by simp only [List.cons_append] at hfalse; simp [hfalse]),
      if_pos (hdot ch (by simp)), ih (ch :: acc) rest hc.2
        (fun x hx => hdot x (by simp [hx]))]
    simp

/-- Well-formed sitemap text: gaps that never contain `<loc>`, and `N`
pairs `<loc>content</loc>` whose contents contain no `</loc>` and no
line terminator (regex `.` does not match line terminators). For
well-formed XML the no-`</loc>`-in-content condition is automatic, since
character data cannot contain `<`. -/
inductive SitemapShape : JStr → List JStr → Prop
  | last (g : JStr) (hg : includesB g locOpen = false) : SitemapShape g []
  | pair (g c rest : JStr) (cs : List JStr)
      (hg : includesB g locOpen = false)
      (hc : includesB c locClose = false)
      (hdot : ∀ x ∈ c, jsDot x = true)
      (h : SitemapShape rest cs) :
      SitemapShape (g ++ (locOpen ++ (c ++ (locClose ++ rest)))) (c :: cs)

theorem scanLocsF_shape :
    ∀ {s : JStr} {cs : List JStr}, SitemapShape s cs →
      ∀ fuel, s.length ≤ fuel → scanLocsF fuel s = cs := by
  intro s cs h
  induction h with
  | last g hg => intro fuel hl; exact scanLocsF_no_open fuel g hl hg
  | pair g c rest cs hg hc hdot h ih =>
    intro fuel hl
    have hlen5 : locOpen.length = 5 := by decide
    have hlen6 : locClose.length = 6 := by decide
    simp only [List.length_append, hlen5, hlen6] at hl
    rw [scanLocsF_skip_gap g fuel (locOpen ++ (c ++ (locClose ++ rest)))
      (by simp only [List.length_append, hlen5, hlen6]; omega) hg
      ((isPrefixOf_eq_true_iff _ _).mpr ⟨_, rfl⟩)]
    obtain ⟨f2, hf2⟩ : ∃ f2, fuel - g.length = f2 + 1 :=
      ⟨fuel - g.length - 1, by omega⟩
    rw [hf2]
    rw [show locOpen ++ (c ++ (locClose ++ rest))
        = 60 :: (108 :: 111 :: 99 :: 62 :: (c ++ (locClose ++ rest))) by
      simp [locOpen_eq]]
    rw [scanLocsF, if_pos ((isPrefixOf_eq_true_iff _ _).mpr
      ⟨c ++ (locClose ++ rest), by simp [locOpen_eq]⟩)]
    have hdrop : List.drop 5
        (60 :: 108 :: 111 :: 99 :: 62 :: (c ++ (locClose ++ rest)))
        = c ++ (locClose ++ rest) := by
      simp [List.drop]
    simp only [List.drop, hdrop]
    rw [findLocEnd_complete c [] rest hc hdot]
    simp only [List.reverse_nil, List.nil_append]
    rw [ih f2 (by omega)]

/-! ## extractTextFromHtml (event server) -/

/-- Whether a code point is a `\w` word character, `[A-Za-z0-9_]`. -/
def isWordCp (n : Nat) : Bool :=
  (48 ≤ n && n ≤ 57) || (65 ≤ n && n ≤ 90) || (97 ≤ n && n ≤ 122) || n == 95

/-- Case-insensitive prefix test against an (all-lowercase) pattern, for
the `gi` regex flags. -/
def ciPrefixOf : JStr → JStr → Bool
  | [], _ => true
  | _ :: _, [] => false
  | p :: ps, c :: cs => (lowerCp c == p) && ciPrefixOf ps cs

/-- Scan for the first case-insensitive occurrence of `close` and return
the remainder after it. -/
def findCiClose (close : JStr) : JStr → Option JStr
  | [] => none
  | c :: rest =>
    if ciPrefixOf close (c :: rest) then some ((c :: rest).drop close.length)
    else findCiClose close rest

/-- Try to match `<script\b[^<]*(?:(?!<\/script>)<[^<]*)*<\/script>` (or the
`style` analogue) at the current position: the case-insensitive opener,
a word-boundary after it, then everything up to and including the first
case-insensitive closer. Returns the remainder after the whole match. -/
def tryOpenTag (openPat closePat s : JStr) : Option JStr :=
  if ciPrefixOf openPat s then
    match s.drop openPat.length with
    | [] => none
    | c :: rest => if isWordCp c then none else findCiClose closePat (c :: rest)
  else none

/-- The `replace(re, '')` sweep for the script/style block regexes: on a
match, drop it and resume after it; otherwise advance one position. The
fuel is always the input length. -/
def removeTagBlocksF (openPat closePat : JStr) : Nat → JStr → JStr
  | 0, s => s
  | _ + 1, [] => []
  | fuel + 1, c :: rest =>
    match tryOpenTag openPat closePat (c :: rest) with
    | some rem => removeTagBlocksF openPat closePat fuel rem
    | none => c :: removeTagBlocksF openPat closePat fuel rest

/-- `html.replace(/<script...<\/script>/gi, '')` (and the style analogue). -/
def removeTagBlocks (openPat closePat s : JStr) : JStr :=
  removeTagBlocksF openPat closePat s.length s

/-- Scan to the first `>` and return the remainder after it. -/
def afterGt : JStr → Option JStr
  | [] => none
  | c :: rest => if c == 62 then some rest else afterGt rest

/-- After a `<`: match `[^>]+>`, i.e. at least one non-`>` character and
then the closing `>`; returns the remainder. -/
def findTagEnd : JStr → Option JStr
  | [] => none
  | c :: rest => if c == 62 then none else afterGt rest

/-- `text.replace(/<[^>]+>/g, ' ')`: each matched tag becomes one space. -/
def stripTagsF : Nat → JStr → JStr
  | 0, s => s
  | _ + 1, [] => []
  | fuel + 1, c :: rest =>
    if c == 60 then
      match findTagEnd rest with
      | some rem => 32 :: stripTagsF fuel rem
      | none => c :: stripTagsF fuel rest
    else c :: stripTagsF fuel rest

/-- Strip all remaining HTML tags, replacing each with a space. -/
def stripTags (s : JStr) : JStr := stripTagsF s.length s

/-- `text.replace(/pat/g, rep)` for a literal pattern: leftmost,
non-overlapping, the replacement is not rescanned. -/
def replaceSubF (pat rep : JStr) : Nat → JStr → JStr
  | 0, s => s
  | _ + 1, [] => []
  | fuel + 1, c :: rest =>
    if pat.isPrefixOf (c :: rest) then
      rep ++ replaceSubF pat rep fuel ((c :: rest).drop pat.length)
    else c :: replaceSubF pat rep fuel rest

/-- Global literal replacement. -/
def replaceSub (pat rep s : JStr) : JStr := replaceSubF pat rep s.length s

/-- The six entity decodings, in source order: `&nbsp; &amp; &lt; &gt;
&quot; &#39;`. -/
def decodeEntities (s : JStr) : JStr :=
  replaceSub (str ("&#39;")) (str ("\x27"))
    (replaceSub (str ("&quot;")) (str ("\x22"))
      (replaceSub (str ("&gt;")) (str (">"))
        (replaceSub (str ("&lt;")) (str ("<"))
          (replaceSub (str ("&amp;")) (str ("&"))
            (replaceSub (str ("&nbsp;")) (str (" ")) s)))))

/-- Whether a code point is JS whitespace (`\s`). -/
def jsWs (n : Nat) : Bool :=
  n == 32 || n == 9 || n == 10 || n == 11 || n == 12 || n == 13 ||
    n == 160 || n == 5760 || (8192 ≤ n && n ≤ 8202) || n == 8232 ||
    n == 8233 || n == 8239 || n == 8287 || n == 12288 || n == 65279

/-- `text.replace(/\s+/g, ' ')`: each maximal whitespace run becomes one
space. -/
def collapseWsF : JStr → JStr
  | [] => []
  | [c] => if jsWs c then [32] else [c]
  | c1 :: c2 :: rest =>
    if jsWs c1 && jsWs c2 then collapseWsF (c2 :: rest)
    else (if jsWs c1 then 32 else c1) :: collapseWsF (c2 :: rest)

/-- `text.trim()`. -/
def trimWs (s : JStr) : JStr :=
  ((s.dropWhile (fun c => jsWs c)).reverse.dropWhile (fun c => jsWs c)).reverse

/-- `extractTextFromHtml`: remove script blocks, then style blocks, strip
remaining tags to spaces, decode the six entities, collapse whitespace
and trim. -/
def extractTextFromHtml (html : JStr) : JStr :=
  trimWs (collapseWsF (decodeEntities (stripTags
    (removeTagBlocks (str ("<style")) (str ("</style>"))
      (removeTagBlocks (str ("<script")) (str ("</script>")) html)))))

theorem lowerCp_ne_60 {c : Nat} (h : c ≠ 60) : lowerCp c ≠ 60 := by
  unfold lowerCp
  split <;> omega

theorem removeTagBlocksF_id (openPat closePat : JStr)
    (hop : openPat.head? = some 60) :
    ∀ (fuel : Nat) (s : JStr), 60 ∉ s →
      removeTagBlocksF openPat closePat fuel s = s := by
  intro fuel
  induction fuel with
  | zero => intro s _; rfl
  | succ fuel ih =>
    intro s hs
    cases s with
    | nil => rfl
    | cons c rest =>
      obtain ⟨p', rfl⟩ : ∃ p', openPat = 60 :: p' := by
        cases openPat with
        | nil => simp at hop
        | cons x xs => simp at hop; exact ⟨xs, by rw [hop]⟩
      have hc : c ≠ 60 := fun h => hs (by simp [h])
      have : ciPrefixOf (60 :: p') (c :: rest) = false := by
        rw [ciPrefixOf]
        simp [lowerCp_ne_60 hc]
      rw [removeTagBlocksF]
      rw [show tryOpenTag (60 :: p') closePat (c :: rest) = none by
        rw [tryOpenTag, if_neg (by simp [this])]]
      rw [ih rest (fun h => hs (by simp [h]))]

theorem stripTagsF_id :
    ∀ (fuel : Nat) (s : JStr), 60 ∉ s → stripTagsF fuel s = s := by
  intro fuel
  induction fuel with
  | zero => intro s _; rfl
  | succ fuel ih =>
    intro s hs
    cases s with
    | nil => rfl
    | cons c rest =>
      have hc : c ≠ 60 := fun h => hs (by simp [h])
      rw [stripTagsF, if_neg (by simpa using hc), ih rest (fun h => hs (by simp [h]))]

theorem replaceSubF_id (pat rep : JStr) (hp : pat.head? = some 38) :
    ∀ (fuel : Nat) (s : JStr), 38 ∉ s → replaceSubF pat rep fuel s = s := by
  intro fuel
  induction fuel with
  | zero => intro s _; rfl
  | succ fuel ih =>
    intro s hs
    cases s with
    | nil => rfl
    | cons c rest =>
      obtain ⟨p', rfl⟩ : ∃ p', pat = 38 :: p' := by
        cases pat with
        | nil => simp at hp
        | cons x xs => simp at hp; exact ⟨xs, by rw [hp]⟩
      have hc : c ≠ 38 := fun h => hs (by simp [h])
      have hpre : (38 :: p').isPrefixOf (c :: rest) = false := by
        cases h : (38 :: p').isPrefixOf (c :: rest) with
        | false => rfl
        | true =>
          obtain ⟨r, hr⟩ := (isPrefixOf_eq_true_iff _ _).mp h
          injection hr with h1 _
          exact absurd h1 hc
      rw [replaceSubF, if_neg (by simp [hpre]),
        ih rest (fun h => hs (by simp [h]))]

theorem decodeEntities_id (s : JStr) (hs : 38 ∉ s) : decodeEntities s = s := by
  unfold decodeEntities replaceSub
  rw [replaceSubF_id _ _ (by decide) _ s hs, replaceSubF_id _ _ (by decide) _ s hs,
    replaceSubF_id _ _ (by decide) _ s hs, replaceSubF_id _ _ (by decide) _ s hs,
    replaceSubF_id _ _ (by decide) _ s hs, replaceSubF_id _ _ (by decide) _ s hs]

/-- No two adjacent whitespace code points. -/
def WsR (a b : Nat) : Prop := ¬(jsWs a = true ∧ jsWs b = true)

theorem collapseWsF_head_not_ws {c : Nat} (r : JStr) (hc : jsWs c = false) :
    (collapseWsF (c :: r)).head? = some c := by
  cases r with
  | nil => rw [collapseWsF, if_neg (by simp [hc])]; rfl
  | cons c2 r' =>
    rw [collapseWsF, if_neg (by simp [hc])]
    simp [hc]

theorem collapseWsF_wsNormal :
    ∀ s : JStr, List.Chain' WsR (collapseWsF s) ∧
      ∀ x ∈ collapseWsF s, jsWs x = true → x = 32 := by
  intro s
  induction s using collapseWsF.induct with
  | case1 => exact ⟨by simp [collapseWsF], by simp [collapseWsF]⟩
  | case2 c hc =>
    rw [collapseWsF, if_pos hc]
    simp
  | case3 c hc =>
    simp only [Bool.not_eq_true] at hc
    rw [collapseWsF, if_neg (by simp [hc])]
    simp [hc]
  | case4 c1 c2 rest hw ih =>
    rw [collapseWsF, if_pos hw]
    exact ih
  | case5 c1 c2 rest hw ih =>
    rw [collapseWsF, if_neg hw]
    have hnot : ¬(jsWs c1 = true ∧ jsWs c2 = true) := by
      intro ⟨h1, h2⟩
      rw [h1, h2] at hw
      exact hw rfl
    constructor
    · rw [List.chain'_cons']
      refine ⟨?_, ih.1⟩
      intro b hb
      by_cases h1 : jsWs c1 = true
      · have h2 : jsWs c2 = false := by
          cases h : jsWs c2 with
          | false => rfl
          | true => exact absurd ⟨h1, h⟩ hnot
        rw [collapseWsF_head_not_ws rest h2] at hb
        simp only [Option.mem_def, Option.some.injEq] at hb
        subst hb
        exact fun ⟨_, hb2⟩ => by rw [h2] at hb2; exact absurd hb2 (by simp)
      · simp only [Bool.not_eq_true] at h1
        rw [if_neg (by simp [h1])]
        exact fun ⟨hb1, _⟩ => by rw [h1] at hb1; exact absurd hb1 (by simp)
    · intro x hx hwx
      rcases List.mem_cons.mp hx with h | h
      · subst h
        by_cases h1 : jsWs c1 = true
        · rw [if_pos h1]
        · rw [if_neg h1] at hwx ⊢
          exact absurd hwx h1
      · exact ih.2 x h hwx

theorem dropWhile_suffix_decomp (p : Nat → Bool) (l : JStr) :
    ∃ pre, l = pre ++ l.dropWhile p := by
  induction l with
  | nil => exact ⟨[], rfl⟩
  | cons a l ih =>
    rw [List.dropWhile_cons]
    by_cases h : p a = true
    · rw [if_pos h]
      obtain ⟨pre, hpre⟩ := ih
      exact ⟨a :: pre, by rw [List.cons_append, ← hpre]⟩
    · rw [if_neg h]
      exact ⟨[], rfl⟩

theorem dropWhile_head_false (p : Nat → Bool) :
    ∀ (l : JStr) {c : Nat} {t : JStr}, l.dropWhile p = c :: t → p c = false := by
  intro l
  induction l with
  | nil => intro c t h; simp at h
  | cons a l ih =>
    intro c t h
    rw [List.dropWhile_cons] at h
    by_cases ha : p a = true
    · rw [if_pos ha] at h
      exact ih h
    · rw [if_neg ha] at h
      injection h with h1 _
      rw [h1] at ha
      simpa using ha

theorem chain'_wsR_of_append {a b : JStr} (h : List.Chain' WsR (a ++ b)) :
    List.Chain' WsR b :=
  (List.chain'_append.mp h).2.1

theorem chain'_wsR_reverse {l : JStr} (h : List.Chain' WsR l) :
    List.Chain' WsR l.reverse := by
  rw [List.chain'_reverse]
  exact h.imp (fun a b hab => fun ⟨h1, h2⟩ => hab ⟨h2, h1⟩)

theorem collapseWsF_of_wsNormal :
    ∀ s : JStr, List.Chain' WsR s → (∀ x ∈ s, jsWs x = true → x = 32) →
      collapseWsF s = s := by
  intro s
  induction s using collapseWsF.induct with
  | case1 => intro _ _; rfl
  | case2 c hc =>
    intro _ hm
    rw [collapseWsF, if_pos hc, hm c (by simp) hc]
  | case3 c hc =>
    intro _ _
    rw [collapseWsF, if_neg hc]
  | case4 c1 c2 rest hw ih =>
    intro hch _
    exfalso
    have := List.chain'_cons.mp hch
    simp only [Bool.and_eq_true] at hw
    exact this.1 ⟨hw.1, hw.2⟩
  | case5 c1 c2 rest hw ih =>
    intro hch hm
    have hch' := List.chain'_cons.mp hch
    rw [collapseWsF, if_neg hw,
      ih hch'.2 (fun x hx hwx => hm x (by simp [hx]) hwx)]
    by_cases h1 : jsWs c1 = true
    · rw [if_pos h1, hm c1 (by simp) h1]
    · rw [if_neg h1]

theorem trimWs_of_clean_ends (s : JStr)
    (h1 : ∀ c t, s = c :: t → jsWs c = false)
    (h2 : ∀ c t, s.reverse = c :: t → jsWs c = false) :
    trimWs s = s := by
  cases hs : s with
  | nil => rfl
  | cons a t =>
    unfold trimWs
    rw [← hs]
    have hd1 : s.dropWhile (fun c => jsWs c) = s := by
      rw [hs, List.dropWhile_cons, if_neg (by simp [h1 a t hs])]
    rw [hd1]
    cases hr : s.reverse with
    | nil => simp [hs] at hr
    | cons b u =>
      have hd2 : List.dropWhile (fun c => jsWs c) (b :: u) = b :: u := by
        rw [List.dropWhile_cons, if_neg (by simp [h2 b u hr])]
      rw [hd2, ← hr, List.reverse_reverse]

/-- The output of `trimWs (collapseWsF x)` is a fixed point of both
`collapseWsF` and `trimWs`. -/
theorem trim_collapse_fixed (x : JStr) :
    collapseWsF (trimWs (collapseWsF x)) = trimWs (collapseWsF x) ∧
      trimWs (trimWs (collapseWsF x)) = trimWs (collapseWsF x) := by
  obtain ⟨hch, hmem⟩ := collapseWsF_wsNormal x
  set y := collapseWsF x with hy
  set y1 := y.dropWhile (fun c => jsWs c) with hy1
  set y3 := y1.reverse.dropWhile (fun c => jsWs c) with hy3
  have ht : trimWs y = y3.reverse := rfl
  obtain ⟨pre1, hpre1⟩ := dropWhile_suffix_decomp (fun c => jsWs c) y
  obtain ⟨pre3, hpre3⟩ := dropWhile_suffix_decomp (fun c => jsWs c) y1.reverse
  have hch1 : List.Chain' WsR y1 := chain'_wsR_of_append (hpre1 ▸ hch)
  have hch3 : List.Chain' WsR y3 :=
    chain'_wsR_of_append (hpre3 ▸ chain'_wsR_reverse hch1)
  have hcht : List.Chain' WsR y3.reverse := chain'_wsR_reverse hch3
  have hmem1 : ∀ c ∈ y1, c ∈ y := by
    intro c hc
    rw [hpre1]
    simp [hc]
  have hmem3 : ∀ c ∈ y3.reverse, c ∈ y := by
    intro c hc
    rw [List.mem_reverse] at hc
    have : c ∈ y1.reverse := by
      rw [hpre3]
      simp [hc]
    exact hmem1 c (List.mem_reverse.mp this)
  have hmemt : ∀ c ∈ y3.reverse, jsWs c = true → c = 32 :=
    fun c hc hwc => hmem c (hmem3 c hc) hwc
  -- y3.reverse is a prefix of y1, so its head fails jsWs
  have hy1eq : y1 = y3.reverse ++ pre3.reverse := by
    have := congrArg List.reverse hpre3
    rw [List.reverse_reverse, List.reverse_append] at this
    exact this
  have hhead : ∀ c t, y3.reverse = c :: t → jsWs c = false := by
    intro c t hct
    have : y1 = c :: (t ++ pre3.reverse) := by
      rw [hy1eq, hct]
      simp
    exact dropWhile_head_false _ y (hy1 ▸ this)
  have hlast : ∀ c t, (y3.reverse).reverse = c :: t → jsWs c = false := by
    intro c t hct
    rw [List.reverse_reverse] at hct
    exact dropWhile_head_false _ y1.reverse (hy3 ▸ hct)
  refine ⟨?_, ?_⟩
  · rw [ht]
    exact collapseWsF_of_wsNormal y3.reverse hcht hmemt
  · rw [ht]
    exact trimWs_of_clean_ends y3.reverse hhead hlast

/-! ## Tool response envelopes and handler cores

The handlers' text payloads are modelled structurally by `OutText`, one
constructor per template literal in the source, carrying the data that is
interpolated; `isError` is the envelope flag the callers branch on. The
network fetch is outside the shallow embedding: each site-tool core takes
the already-parsed sitemap URL list. -/

/-- The text payload of a tool response, one constructor per message
shape in the source. -/
inductive OutText : Type where
  | errUnknownBrand (brand : JStr)
  | errUnknownComponent (component : JStr)
  | jsonOut (v : JVal)
  | cssOut (s : JStr)
  | noResults (query : JStr)
  | resultsList (total : Nat) (shown : List SRecord) (hasMore : Bool)
  | noUrlMatches (pattern : JStr)
  | urlMatches (urls : List JStr)
  /-- The `Error: ...` message produced by a handler's catch block when a
  thrown exception (e.g. the TypeError of `Object.entries(null)`) reaches
  the tool boundary; the engine-dependent message text is abstracted. -/
  | errException

/-- The `{ content: [{type: "text", text}], isError? }` envelope. -/
structure Envelope : Type where
  text : OutText
  isError : Bool

/-- The URL filter of `search_events`: keep the URLs that contain the
(optionally lower-cased) pattern as a plain substring. -/
def searchEventsMatches (urls : List JStr) (pattern : JStr)
    (caseInsensitive : Bool) : List JStr :=
  urls.filter fun url =>
    includesB (if caseInsensitive then lowerStr url else url)
      (if caseInsensitive then lowerStr pattern else pattern)

/-- The `search_events` handler after the sitemap has been fetched and
parsed: zero matches give a normal no-match envelope, otherwise the
match list. -/
def search_events_result (urls : List JStr) (pattern : JStr)
    (caseInsensitive : Bool) : Envelope :=
  let ms := searchEventsMatches urls pattern caseInsensitive
  if ms.length = 0 then ⟨.noUrlMatches pattern, false⟩
  else ⟨.urlMatches ms, false⟩

/-- The `list_all_events` handler after fetch+parse: the returned URL list
(truncated to `limit` when `limit > 0`) and the omitted count reported in
the `... and N more` suffix when it is shown. -/
def list_all_events_result (urls : List JStr) (limit : Int) :
    List JStr × Option Int :=
  (if 0 < limit then urls.take limit.toNat else urls,
   if 0 < limit ∧ limit < (urls.length : Int) then
     some ((urls.length : Int) - limit)
   else none)

/-- The `search_design_standards` handler: run the search, slice to
`maxResults`, and report zero results as a normal envelope. -/
def search_design_standards_result (doc : JObj) (query : JStr)
    (caseSensitive : Bool) (maxResults : Nat) : Envelope :=
  let results := searchDesignStandards doc query caseSensitive
  if results.length = 0 then ⟨.noResults query, false⟩
  else ⟨.resultsList results.length (results.take maxResults)
    (decide (maxResults < results.length)), false⟩

/-- The `get_usage_guidelines` handler: project `designStandards.usage`
(or the single requested category, `undefined` when absent) into a normal
JSON envelope; there is no error path for an absent category. -/
def get_usage_guidelines (usage : JObj) (category : JStr) : Envelope :=
  if category = str ("all") then ⟨.jsonOut (.obj usage), false⟩
  else ⟨.jsonOut (.obj (JObj.cons category (jsIndex usage category) .nil)), false⟩

/-! ## CSS generation (src/server.ts, lines 62-104 and 450-528) -/

/-- `.{brandPrefix}-{component} \x7b\n`. -/
def compSelOpen (brandPrefix component : JStr) : JStr :=
  str (".") ++ brandPrefix ++ str ("-") ++ component ++ str (" \x7b\n")

/-- `\n.{brandPrefix}-{component}:hover \x7b\n`. -/
def hoverSelOpen (brandPrefix component : JStr) : JStr :=
  str ("\n.") ++ brandPrefix ++ str ("-") ++ component ++ str (":hover \x7b\n")

/-- One line of the main component block, per entry of the rule tree:
a `css` string leaf is emitted, a `hover` object is skipped, and any
other object containing a `css` key has that value emitted. -/
def bodyLine (k : JStr) (v : JVal) : JStr :=
  if k = str ("css") ∧ v.isStringV then str ("  ") ++ v.getStr ++ str ("\n")
  else if k = str ("hover") ∧ v.typeofObject then []
  else if v.typeofObject ∧ v.isNullV = false ∧ jsHasKey v (str ("css")) then
    str ("  ") ++ jsToString (jget v (str ("css"))) ++ str ("\n")
  else []

/-- The single-level walk of `processRules` over the rule tree entries. -/
def componentBody (entries : List (JStr × JVal)) : JStr :=
  (entries.map fun kv => bodyLine kv.1 kv.2).flatten

/-- The body of the `:hover` block: `rules.hover.css` when it is a string,
otherwise the `css` string entries of `rules.hover` when it is an object. -/
def hoverBody (hv : JVal) : JStr :=
  if (jget hv (str ("css"))).isStringV then
    str ("  ") ++ (jget hv (str ("css"))).getStr ++ str ("\n")
  else if hv.typeofObject then
    ((jsEntries hv).map fun kv =>
      if kv.1 = str ("css") ∧ kv.2.isStringV then
        str ("  ") ++ kv.2.getStr ++ str ("\n")
      else []).flatten
  else []

/-- `generateComponentCSS(component, rules, brandPrefix)`: `processRules`
iterates `Object.entries(rules)` - a TypeError (`none`) when `rules` is
`null`/`undefined` - then the main block, then a `:hover` block exactly
when `rules.hover` is truthy. -/
def generateComponentCSS (component : JStr) (rules : JVal)
    (brandPrefix : JStr) : Option JStr :=
  match jsEntriesE rules with
  | none => none
  | some entries =>
    some (compSelOpen brandPrefix component ++ componentBody entries ++
      str ("\x7d\n") ++
      (if jsTruthy (jget rules (str ("hover"))) then
        hoverSelOpen brandPrefix component ++
          hoverBody (jget rules (str ("hover"))) ++ str ("\x7d\n")
      else []))

/-- `:root \x7b\n`. -/
def rootOpen : JStr := str (":root \x7b\n")

/-- The per-category variable lines shared by `generate_css` and the CSS
branch of `get_brand_styles`: each category other than `fontFiles`
contributes a comment line and one `key: value;` line per entry. The
inner `Object.entries(variables)` is unguarded in the source, so a
`null`/`undefined` category value throws (`none`) and the accumulated
text is discarded by the handler's catch. -/
def varLinesE : List (JStr × JVal) → Option JStr
  | [] => some []
  | (cat, vars) :: rest =>
    if cat = str ("fontFiles") then varLinesE rest
    else
      match jsEntriesE vars, varLinesE rest with
      | some ventries, some restText =>
        some (str ("  /* ") ++ cat ++ str (" */\n") ++
          (ventries.map fun kv =>
            str ("  ") ++ kv.1 ++ str (": ") ++ jsToString kv.2 ++
              str (";\n")).flatten ++ str ("\n") ++ restText)
      | _, _ => none

/-- The CSS-variables section of `generate_css`: banner comment, `:root`
block with the variable lines when `brandData.css` is truthy (the outer
`Object.entries(brandData.css)` sits behind that truthiness guard and
cannot throw; the inner per-category entries can). -/
def cssVarsSection (brandCss : JVal) : Option JStr :=
  match (if jsTruthy brandCss then varLinesE (jsEntries brandCss)
         else some []) with
  | none => none
  | some v =>
    some (str ("/* ========== CSS Variables ========== */\n") ++ rootOpen ++
      v ++ str ("\x7d\n\n"))

/-- `component.charAt(0).toUpperCase() + component.slice(1)`. -/
def capFirst : JStr → JStr
  | [] => []
  | c :: rest => (if 97 ≤ c ∧ c ≤ 122 then c - 32 else c) :: rest

/-- The `/* ========== Component ========== */` banner. -/
def sectionComment (component : JStr) : JStr :=
  str ("/* ========== ") ++ capFirst component ++ str (" ========== */\n")

/-- The component-styles section of `generate_css`: for each requested
component that is truthy in `cssRules`, a banner, the component CSS and a
blank line; absent components are skipped silently. A throw inside
`generateComponentCSS` propagates (`none`); the truthiness guard in fact
prevents it, which `componentsSectionE_contains` proves. -/
def componentsSectionE (cssRules : JObj) (brand : JStr) :
    List JStr → Option JStr
  | [] => some []
  | comp :: rest =>
    match (if jsTruthy (jsIndex cssRules comp) then
            match generateComponentCSS comp (jsIndex cssRules comp) brand with
            | none => none
            | some t => some (sectionComment comp ++ t ++ str ("\n"))
          else some []),
        componentsSectionE cssRules brand rest with
    | some e, some r => some (e ++ r)
    | _, _ => none

/-- The full stylesheet text of `generate_css` (the timestamp of
`new Date().toISOString()` is the `now` parameter); `none` when any
`Object.entries` along the way throws, in which case the partial text is
discarded by the catch. -/
def generate_css_text (brandData : JVal) (now : JStr) (cssRules : JObj)
    (brand : JStr) (comps : List JStr) : Option JStr :=
  match cssVarsSection (jget brandData (str ("css"))),
      componentsSectionE cssRules brand comps with
  | some varsText, some compsText =>
    some (str ("/* ") ++ jsToString (jget brandData (str ("name"))) ++
      str (" - Complete Stylesheet */\n/* Generated: ") ++ now ++
      str (" */\n\n") ++ varsText ++ compsText)
  | _, _ => none

/-- The default component list of `generate_css`. -/
def defaultComponents : List JStr :=
  [str ("buttons"), str ("cards"), str ("modals")]

/-- The `generate_css` handler: unknown (falsy) brand gives an error
envelope; a thrown TypeError is converted by the catch into an error
envelope; otherwise the generated stylesheet. -/
def generate_css_result (brands cssRules : JObj) (brand : JStr)
    (includeComponents : Option (List JStr)) (now : JStr) : Envelope :=
  let brandData := jsIndex brands brand
  if jsTruthy brandData = false then ⟨.errUnknownBrand brand, true⟩
  else
    match generate_css_text brandData now cssRules brand
        (includeComponents.getD defaultComponents) with
    | none => ⟨.errException, true⟩
    | some css => ⟨.cssOut css, false⟩

/-- The CSS payload of `get_brand_styles`: the
`/* name - Design Standards */` banner, then - only when
`brandData.css` is truthy - a `/* CSS Variables */` comment and a
`:root` block with the per-category variable lines, closed by a single
`\x7d` line; `none` when an inner `Object.entries` throws. -/
def brandStylesCssE (brandData : JVal) : Option JStr :=
  if jsTruthy (jget brandData (str ("css"))) then
    match varLinesE (jsEntries (jget brandData (str ("css")))) with
    | none => none
    | some v =>
      some (str ("/* ") ++ jsToString (jget brandData (str ("name"))) ++
        str (" - Design Standards */\n\n") ++ str ("/* CSS Variables */\n") ++
        rootOpen ++ v ++ str ("\x7d\n"))
  else
    some (str ("/* ") ++ jsToString (jget brandData (str ("name"))) ++
      str (" - Design Standards */\n\n"))

/-- The `get_brand_styles` handler: falsy `brands[brand]` gives an error
envelope; the catch converts a thrown TypeError into an error envelope;
otherwise a CSS or JSON projection of the brand data. -/
def get_brand_styles (brands : JObj) (brand fmt : JStr) : Envelope :=
  let brandData := jsIndex brands brand
  if jsTruthy brandData = false then ⟨.errUnknownBrand brand, true⟩
  else if fmt = str ("css") then
    match brandStylesCssE brandData with
    | none => ⟨.errException, true⟩
    | some t => ⟨.cssOut t, false⟩
  else ⟨.jsonOut brandData, false⟩

/-- The `get_css_rules` handler: falsy `cssRules[component]` gives an
error envelope; CSS format renders through `generateComponentCSS` for the
renderable components, with prefix `brand` or `"component"`. -/
def get_css_rules (cssRules : JObj) (component fmt : JStr)
    (brand : Option JStr) : Envelope :=
  let componentRules := jsIndex cssRules component
  if jsTruthy componentRules = false then
    ⟨.errUnknownComponent component, true⟩
  else if fmt = str ("css") ∧ component ∈ defaultComponents then
    match generateComponentCSS component componentRules
        (brand.getD (str ("component"))) with
    | none => ⟨.errException, true⟩
    | some t => ⟨.cssOut t, false⟩
  else ⟨.jsonOut componentRules, false⟩

/-- Sequential containment: each pattern occurs in the text, in order,
each strictly after the previous one. -/
def containsInOrder : List JStr → JStr → Prop
  | [], _ => True
  | p :: ps, s => ∃ a b, s = a ++ p ++ b ∧ containsInOrder ps b

theorem containsInOrder_nil (s : JStr) : containsInOrder [] s := trivial

theorem containsInOrder_pre {ps : List JStr} {s : JStr}
    (h : containsInOrder ps s) (pre : JStr) : containsInOrder ps (pre ++ s) := by
  cases ps with
  | nil => trivial
  | cons p ps =>
    obtain ⟨a, b, rfl, hrest⟩ := h
    exact ⟨pre ++ a, b, by simp, hrest⟩

theorem containsInOrder_post {ps : List JStr} {s : JStr}
    (h : containsInOrder ps s) (post : JStr) :
    containsInOrder ps (s ++ post) := by
  induction ps generalizing s with
  | nil => trivial
  | cons p ps ih =>
    obtain ⟨a, b, rfl, hrest⟩ := h
    exact ⟨a, b ++ post, by simp, ih hrest⟩

theorem containsInOrder_cons {ps : List JStr} {b : JStr} (a p : JStr)
    (h : containsInOrder ps b) : containsInOrder (p :: ps) (a ++ p ++ b) :=
  ⟨a, b, rfl, h⟩

theorem containsInOrder_append {ps1 ps2 : List JStr} {s1 s2 : JStr}
    (h1 : containsInOrder ps1 s1) (h2 : containsInOrder ps2 s2) :
    containsInOrder (ps1 ++ ps2) (s1 ++ s2) := by
  induction ps1 generalizing s1 with
  | nil => exact containsInOrder_pre h2 s1
  | cons p ps ih =>
    obtain ⟨a, b, rfl, hrest⟩ := h1
    exact ⟨a, b ++ s2, by simp, ih hrest⟩

theorem jsEntriesE_of_truthy {v : JVal} (h : jsTruthy v = true) :
    jsEntriesE v = some (jsEntries v) := by
  cases v <;> simp [jsTruthy] at h <;> rfl

theorem generateComponentCSS_of_truthy (comp : JStr) (rules : JVal)
    (pfx : JStr) (h : jsTruthy rules = true) :
    generateComponentCSS comp rules pfx =
      some (compSelOpen pfx comp ++ componentBody (jsEntries rules) ++
        str ("\x7d\n") ++
        (if jsTruthy (jget rules (str ("hover"))) then
          hoverSelOpen pfx comp ++ hoverBody (jget rules (str ("hover"))) ++
            str ("\x7d\n")
        else [])) := by
  unfold generateComponentCSS
  rw [jsEntriesE_of_truthy h]

theorem containsInOrder_componentText (entries : List (JStr × JVal))
    (hov : JVal) (brand comp : JStr) :
    containsInOrder (compSelOpen brand comp ::
        (if jsTruthy hov then [hoverSelOpen brand comp] else []))
      (sectionComment comp ++
        (compSelOpen brand comp ++ componentBody entries ++ str ("\x7d\n") ++
          (if jsTruthy hov then
            hoverSelOpen brand comp ++ hoverBody hov ++ str ("\x7d\n")
          else [])) ++ str ("\n")) := by
  by_cases h : jsTruthy hov = true
  · rw [if_pos h, if_pos h]
    refine ⟨sectionComment comp,
      componentBody entries ++ str ("\x7d\n") ++
        (hoverSelOpen brand comp ++ hoverBody hov ++ str ("\x7d\n")) ++
        str ("\n"),
      by simp, ?_⟩
    refine ⟨componentBody entries ++ str ("\x7d\n"),
      hoverBody hov ++ str ("\x7d\n") ++ str ("\n"),
      by simp, trivial⟩
  · rw [if_neg h, if_neg h]
    exact ⟨sectionComment comp,
      componentBody entries ++ str ("\x7d\n") ++ ([] ++ str ("\n")),
      by simp, trivial⟩

theorem componentsSectionE_contains (cssRules : JObj) (brand : JStr) :
    ∀ comps : List JStr, (∀ c ∈ comps, jsTruthy (jsIndex cssRules c) = true) →
      ∃ s, componentsSectionE cssRules brand comps = some s ∧
        containsInOrder
          (comps.flatMap fun c => compSelOpen brand c ::
            (if jsTruthy (jget (jsIndex cssRules c) (str ("hover"))) then
              [hoverSelOpen brand c] else []))
          s := by
  intro comps
  induction comps with
  | nil => intro _; exact ⟨[], rfl, trivial⟩
  | cons c cs ih =>
    intro h
    have hc : jsTruthy (jsIndex cssRules c) = true := h c (by simp)
    obtain ⟨s, hs, hcont⟩ := ih fun x hx => h x (by simp [hx])
    refine ⟨(sectionComment c ++
        (compSelOpen brand c ++ componentBody (jsEntries (jsIndex cssRules c))
          ++ str ("\x7d\n") ++
          (if jsTruthy (jget (jsIndex cssRules c) (str ("hover"))) then
            hoverSelOpen brand c ++
              hoverBody (jget (jsIndex cssRules c) (str ("hover"))) ++
              str ("\x7d\n")
          else [])) ++ str ("\n")) ++ s, ?_, ?_⟩
    · rw [componentsSectionE, if_pos hc,
        generateComponentCSS_of_truthy c (jsIndex cssRules c) brand hc, hs]
    · rw [List.flatMap_cons]
      exact containsInOrder_append
        (containsInOrder_componentText _ _ brand c) hcont

/-! ## The claims -/

/-- C1: for every design-token document entry where both the key/path
check and the string-value check succeed for the same query,
`searchDesignStandards` pushes a key-match record and a value-match
record as two separate (identical) records; each entry contributes at
most two records; and records accumulate in depth-first,
declaration-order traversal — per-entry records first, then the
subtree's records, then the remaining siblings' — starting from the
document root with an empty path. -/
theorem claim1_search_duplicate_records :
    (∀ (cs : Bool) (term : JStr) (path : List JStr) (k : JStr) (v : JVal)
        (rest : JObj),
      searchObjFields cs term path (JObj.cons k v rest) =
        nodeRecords cs term path k v ++ searchVal cs term (path ++ [k]) v ++
          searchObjFields cs term path rest ∧
      (matchesKeyOrPath cs term path k = true →
        valueIsMatch cs term v = true →
        nodeRecords cs term path k v =
          [⟨joinDot (path ++ [k]), k, v⟩, ⟨joinDot (path ++ [k]), k, v⟩]) ∧
      (nodeRecords cs term path k v).length ≤ 2) ∧
    ∀ (doc : JObj) (q : JStr) (cs : Bool),
      searchDesignStandards doc q cs =
        searchObjFields cs (if cs then q else lowerStr q) [] doc := by
  constructor
  · intro cs term path k v rest
    refine ⟨rfl, ?_, ?_⟩
    · intro h1 h2
      unfold nodeRecords
      rw [if_pos h1, if_pos h2]
      rfl
    · unfold nodeRecords
      split <;> split <;> simp
  · intro doc q cs
    rfl

/-- Witness for C1 at a concrete entry where both checks fire. -/
theorem claim1_witness :
    matchesKeyOrPath false (str ("colors")) [] (str ("colors")) = true ∧
    valueIsMatch false (str ("colors")) (.str (str ("brand colors"))) = true ∧
    nodeRecords false (str ("colors")) [] (str ("colors"))
        (.str (str ("brand colors"))) =
      [⟨joinDot [str ("colors")], str ("colors"), .str (str ("brand colors"))⟩,
       ⟨joinDot [str ("colors")], str ("colors"),
         .str (str ("brand colors"))⟩] :=
  ⟨by decide, by decide,
    (claim1_search_duplicate_records.1 false (str ("colors")) [] (str ("colors"))
      (.str (str ("brand colors"))) JObj.nil).2.1 (by decide) (by decide)⟩

/-- C9: with `caseSensitive = true` the dotted-path test compares the
lower-cased path against the unmodified query, so for a query containing
an uppercase letter the path branch can never fire, and the key/path
check degenerates to containment in the unmodified key. -/
theorem claim9_cs_path_branch_dead :
    ∀ (term : JStr) (path : List JStr) (k : JStr),
      (∃ c ∈ term, 65 ≤ c ∧ c ≤ 90) →
      includesB (lowerStr (joinDot (path ++ [k]))) term = false ∧
      matchesKeyOrPath true term path k = includesB k term := by
  rintro term path k ⟨c, hc, hrange⟩
  have hpath : includesB (lowerStr (joinDot (path ++ [k]))) term = false := by
    cases h : includesB (lowerStr (joinDot (path ++ [k]))) term with
    | false => rfl
    | true => exact absurd hrange (lowerStr_not_upper (mem_of_includesB h hc))
  refine ⟨hpath, ?_⟩
  unfold matchesKeyOrPath
  simp [hpath]

/-- Witness for C9 at a concrete uppercase query. -/
theorem claim9_witness :
    (∃ c ∈ str ("AB292C"), 65 ≤ c ∧ c ≤ 90) ∧
    (includesB (lowerStr (joinDot ([str ("brands")] ++ [str ("PMC")])))
        (str ("AB292C")) = false ∧
      matchesKeyOrPath true (str ("AB292C")) [str ("brands")] (str ("PMC")) =
        includesB (str ("PMC")) (str ("AB292C"))) :=
  ⟨by decide, claim9_cs_path_branch_dead (str ("AB292C")) [str ("brands")]
    (str ("PMC")) (by decide)⟩

/-- C4: `list_all_events` with `limit = 0` returns all URLs; with
`0 < k < T` it returns exactly the first `k` URLs in sitemap order and
reports `T - k` omitted; with `k ≥ T` it returns all URLs with no
omission notice. -/
theorem claim4_list_all_events_limit :
    ∀ (urls : List JStr) (k : Int),
      list_all_events_result urls 0 = (urls, none) ∧
      (0 < k → k < (urls.length : Int) →
        list_all_events_result urls k =
          (urls.take k.toNat, some ((urls.length : Int) - k))) ∧
      ((urls.length : Int) ≤ k →
        list_all_events_result urls k = (urls, none)) := by
  intro urls k
  refine ⟨?_, ?_, ?_⟩
  · unfold list_all_events_result
    rw [if_neg (by omega), if_neg (by simp)]
  · intro h1 h2
    unfold list_all_events_result
    rw [if_pos h1, if_pos ⟨h1, h2⟩]
  · intro hle
    unfold list_all_events_result
    by_cases h1 : (0 : Int) < k
    · rw [if_pos h1, if_neg (by omega)]
      have hlen : urls.length ≤ k.toNat := by omega
      rw [List.take_of_length_le hlen]
    · rw [if_neg h1, if_neg (by omega)]

/-- Witness for C4 with three URLs and limit 2. -/
theorem claim4_witness :
    (0 : Int) < 2 ∧
    (2 : Int) < (([str ("a"), str ("b"), str ("c")] : List JStr).length : Int) ∧
    list_all_events_result [str ("a"), str ("b"), str ("c")] 2 =
      ([str ("a"), str ("b")], some 1) := by
  refine ⟨by decide, by decide, ?_⟩
  rw [(claim4_list_all_events_limit [str ("a"), str ("b"), str ("c")] 2).2.1
    (by decide) (by decide)]
  decide

/-- C10: every limit value at most zero — in particular every negative
limit — is treated as unlimited: all sitemap URLs are returned and no
omission notice is produced. -/
theorem claim10_nonpositive_limit_unlimited :
    ∀ (urls : List JStr) (k : Int), k ≤ 0 →
      list_all_events_result urls k = (urls, none) := by
  intro urls k hk
  unfold list_all_events_result
  rw [if_neg (by omega), if_neg (by omega)]

/-- Witness for C10 at limit -7. -/
theorem claim10_witness :
    (-7 : Int) ≤ 0 ∧
    list_all_events_result [str ("u")] (-7) = ([str ("u")], none) :=
  ⟨by decide, claim10_nonpositive_limit_unlimited [str ("u")] (-7) (by decide)⟩

/-- C6: a search that finds zero matches returns a normal envelope
describing zero results, never an error: `search_events` with no matching
URLs and `search_design_standards` with no matching records both produce
`isError = false` zero-result messages. -/
theorem claim6_zero_results_not_error :
    (∀ (urls : List JStr) (pattern : JStr) (ci : Bool),
      searchEventsMatches urls pattern ci = [] →
      search_events_result urls pattern ci =
        ⟨.noUrlMatches pattern, false⟩) ∧
    ∀ (doc : JObj) (q : JStr) (cs : Bool) (maxResults : Nat),
      searchDesignStandards doc q cs = [] →
      search_design_standards_result doc q cs maxResults =
        ⟨.noResults q, false⟩ := by
  constructor
  · intro urls pattern ci h
    simp [search_events_result, h]
  · intro doc q cs maxResults h
    simp [search_design_standards_result, h]

/-- Witness for C6 on empty inputs. -/
theorem claim6_witness :
    searchEventsMatches [] (str ("ride")) true = [] ∧
    search_events_result [] (str ("ride")) true =
      ⟨.noUrlMatches (str ("ride")), false⟩ ∧
    searchDesignStandards JObj.nil (str ("xyz")) false = [] ∧
    search_design_standards_result JObj.nil (str ("xyz")) false 20 =
      ⟨.noResults (str ("xyz")), false⟩ :=
  ⟨rfl, claim6_zero_results_not_error.1 [] (str ("ride")) true rfl,
   rfl, claim6_zero_results_not_error.2 JObj.nil (str ("xyz")) false 20 rfl⟩

/-- C7: `search_events` retains exactly the URLs that contain the pattern
as a plain substring, both sides lower-cased first when
`caseInsensitive = true`; consequently a case-insensitive search for
"EVENT" matches every URL containing "event". -/
theorem claim7_search_events_substring :
    (∀ (urls : List JStr) (pattern : JStr) (ci : Bool) (url : JStr),
      url ∈ searchEventsMatches urls pattern ci ↔
        url ∈ urls ∧
          includesB (if ci then lowerStr url else url)
            (if ci then lowerStr pattern else pattern) = true) ∧
    ∀ (urls : List JStr) (url : JStr), url ∈ urls →
      includesB url (str ("event")) = true →
      url ∈ searchEventsMatches urls (str ("EVENT")) true := by
  constructor
  · intro urls pattern ci url
    unfold searchEventsMatches
    exact List.mem_filter
  · intro urls url hu hinc
    unfold searchEventsMatches
    refine List.mem_filter.mpr ⟨hu, ?_⟩
    simp only [if_pos rfl]
    have hlow : lowerStr (str ("EVENT")) = str ("event") := by decide
    rw [hlow]
    obtain ⟨a, b, rfl⟩ := (includesB_eq_true_iff _ _).mp hinc
    refine (includesB_eq_true_iff _ _).mpr ⟨lowerStr a, lowerStr b, ?_⟩
    have he : List.map lowerCp (str ("event")) = str ("event") := by decide
    simp [lowerStr, he]

/-- Witness for C7: the case-insensitive "EVENT" search retains a URL
containing "event". -/
theorem claim7_witness :
    str ("https://www.pmc.org/events/2026") ∈
        ([str ("https://www.pmc.org/events/2026")] : List JStr) ∧
    includesB (str ("https://www.pmc.org/events/2026")) (str ("event")) = true ∧
    str ("https://www.pmc.org/events/2026") ∈
      searchEventsMatches [str ("https://www.pmc.org/events/2026")]
        (str ("EVENT")) true :=
  ⟨by decide, by decide,
    claim7_search_events_substring.2 [str ("https://www.pmc.org/events/2026")]
      (str ("https://www.pmc.org/events/2026")) (by decide) (by decide)⟩

/-- C5 counterexample: `get_usage_guidelines` with a category key absent
from the document returns a NORMAL envelope (`isError = false`) — the
handler stringifies `{ [category]: undefined }` and has no error path —
contradicting the claim that category lookups on absent keys return an
error result. -/
theorem claim5_counterexample :
    (get_usage_guidelines
      (JObj.cons (str ("colors")) (.str (str ("guidance"))) .nil)
      (str ("spacing"))).isError = false := by decide

/-- C5 (amended): brand and component lookups on absent (falsy) keys
return an error envelope — in particular `get_brand_styles` with an
unknown brand returns `isError = true` and, being a total function,
never throws — but `get_usage_guidelines` always returns a normal
envelope, embedding the undefined binding, even when the category key is
absent from the document. -/
theorem claim5_amended_absent_keys :
    (∀ (brands : JObj) (brand fmt : JStr),
      jsTruthy (jsIndex brands brand) = false →
      (get_brand_styles brands brand fmt).isError = true) ∧
    (∀ (cssRules : JObj) (component fmt : JStr) (brand : Option JStr),
      jsTruthy (jsIndex cssRules component) = false →
      (get_css_rules cssRules component fmt brand).isError = true) ∧
    ∀ (usage : JObj) (category : JStr),
      (get_usage_guidelines usage category).isError = false := by
  refine ⟨?_, ?_, ?_⟩
  · intro brands brand fmt h
    simp [get_brand_styles, h]
  · intro cssRules component fmt brand h
    simp [get_css_rules, h]
  · intro usage category
    unfold get_usage_guidelines
    split <;> rfl

/-- Witness for C5 (amended) on concrete absent keys. -/
theorem claim5_witness :
    jsTruthy (jsIndex JObj.nil (str ("unknown"))) = false ∧
    (get_brand_styles JObj.nil (str ("unknown")) (str ("json"))).isError
      = true ∧
    (get_usage_guidelines JObj.nil (str ("spacing"))).isError = false :=
  ⟨by decide,
    claim5_amended_absent_keys.1 JObj.nil (str ("unknown")) (str ("json"))
      (by decide),
    claim5_amended_absent_keys.2.2 JObj.nil (str ("spacing"))⟩

/-- C2 counterexample: well-formed XML containing one `<loc>...</loc>`
pair whose content spans a newline. The regex dot does not match line
terminators, so `parseSitemap` returns zero strings instead of the one
the claim promises. -/
theorem claim2_counterexample :
    parseSitemap (str ("<urlset><loc>https://a\nb</loc></urlset>")) = [] := by
  decide

/-- C2 (amended): for every input of the well-formed sitemap shape —
`N` pairs `<loc>content</loc>` whose gaps contain no `<loc>` and whose
contents contain no `</loc>` and, additionally, no line-terminator
character (the regex dot excludes `\n`, `\r`, U+2028, U+2029) —
`parseSitemap` returns exactly the `N` contents, in document order;
being a total function it raises no error on any input. -/
theorem claim2_amended_parseSitemap (s : JStr) (cs : List JStr)
    (h : SitemapShape s cs) : parseSitemap s = cs :=
  scanLocsF_shape h s.length le_rfl

/-- Witness for C2 on a two-URL sitemap. -/
theorem claim2_witness :
    parseSitemap (str ("<urlset><loc>https://a</loc><loc>b</loc></urlset>")) =
      [str ("https://a"), str ("b")] := by
  have h2 : SitemapShape
      ([] ++ (locOpen ++ (str ("b") ++ (locClose ++ str ("</urlset>")))))
      [str ("b")] :=
    SitemapShape.pair _ _ _ _ (by decide) (by decide) (by decide)
      (SitemapShape.last _ (by decide))
  have h1 : SitemapShape
      (str ("<urlset>") ++ (locOpen ++ (str ("https://a") ++ (locClose ++
        ([] ++ (locOpen ++ (str ("b") ++ (locClose ++ str ("</urlset>")))))))))
      [str ("https://a"), str ("b")] :=
    SitemapShape.pair _ _ _ _ (by decide) (by decide) (by decide) h2
  have hmain := claim2_amended_parseSitemap _ _ h1
  rw [show str ("<urlset><loc>https://a</loc><loc>b</loc></urlset>") =
    str ("<urlset>") ++ (locOpen ++ (str ("https://a") ++ (locClose ++
      ([] ++ (locOpen ++ (str ("b") ++ (locClose ++ str ("</urlset>"))))))))
    by decide]
  exact hmain

/-- C3 counterexample: `extractTextFromHtml` is not idempotent. On
`"&lt;b&gt;"` the first pass decodes the entities to `"<b>"` (tag
stripping runs before entity decoding), and a second pass then strips
`<b>` as a tag, yielding the empty string. -/
theorem claim3_counterexample :
    extractTextFromHtml (extractTextFromHtml (str ("&lt;b&gt;"))) ≠
      extractTextFromHtml (str ("&lt;b&gt;")) := by decide

/-- C3 (amended): `extractTextFromHtml` is idempotent on its own output
whenever that output contains neither `<` (60) nor `&` (38); entity
decoding can otherwise reintroduce markup or entities that a second pass
consumes. -/
theorem claim3_amended_idempotent :
    ∀ h : JStr, 60 ∉ extractTextFromHtml h → 38 ∉ extractTextFromHtml h →
      extractTextFromHtml (extractTextFromHtml h) = extractTextFromHtml h := by
  intro h h60 h38
  have hfix := trim_collapse_fixed (decodeEntities (stripTags
    (removeTagBlocks (str ("<style")) (str ("</style>"))
      (removeTagBlocks (str ("<script")) (str ("</script>")) h))))
  conv_lhs => rw [extractTextFromHtml]
  rw [show removeTagBlocks (str ("<script")) (str ("</script>"))
      (extractTextFromHtml h) = extractTextFromHtml h by
    unfold removeTagBlocks
    exact removeTagBlocksF_id _ _ (by decide) _ _ h60]
  rw [show removeTagBlocks (str ("<style")) (str ("</style>"))
      (extractTextFromHtml h) = extractTextFromHtml h by
    unfold removeTagBlocks
    exact removeTagBlocksF_id _ _ (by decide) _ _ h60]
  rw [show stripTags (extractTextFromHtml h) = extractTextFromHtml h by
    unfold stripTags
    exact stripTagsF_id _ _ h60]
  rw [decodeEntities_id _ h38]
  rw [show extractTextFromHtml h = trimWs (collapseWsF (decodeEntities
    (stripTags (removeTagBlocks (str ("<style")) (str ("</style>"))
      (removeTagBlocks (str ("<script")) (str ("</script>")) h))))) from rfl]
  rw [hfix.1, hfix.2]

/-- Witness for C3 on HTML whose extracted text is clean. -/
theorem claim3_witness :
    60 ∉ extractTextFromHtml (str ("<p>Hello <b>world</b></p>")) ∧
    38 ∉ extractTextFromHtml (str ("<p>Hello <b>world</b></p>")) ∧
    extractTextFromHtml
        (extractTextFromHtml (str ("<p>Hello <b>world</b></p>"))) =
      extractTextFromHtml (str ("<p>Hello <b>world</b></p>")) :=
  ⟨by decide, by decide,
    claim3_amended_idempotent (str ("<p>Hello <b>world</b></p>"))
      (by decide) (by decide)⟩

/-- C8 counterexample: a rule tree that defines a `hover` key with value
`null`. The code's `if (rules.hover)` truthiness guard rejects it, so no
`:hover` block is emitted even though the hover key is defined,
contradicting "exactly when the component's rule tree defines a hover
key". -/
theorem claim8_counterexample :
    generateComponentCSS (str ("buttons"))
      (.obj (JObj.cons (str ("hover")) .null .nil)) (str ("pmc")) =
      some (str (".pmc-buttons \x7b\n\x7d\n")) := by decide

/-- Sample brand document for the C8 witness, with one CSS category. -/
def sampleBrands : JObj :=
  JObj.cons (str ("pmc"))
    (.obj (JObj.cons (str ("name")) (.str (str ("Pan-Mass Challenge")))
      (JObj.cons (str ("css"))
        (.obj (JObj.cons (str ("colors"))
          (.obj (JObj.cons (str ("--pmc-primary")) (.str (str ("#AB292C")))
            .nil))
          .nil))
        .nil)))
    .nil

/-- Sample cssRules document for the C8 witness. -/
def sampleCssRules : JObj :=
  JObj.cons (str ("buttons"))
    (.obj (JObj.cons (str ("css")) (.str (str ("color: red;")))
      (JObj.cons (str ("hover"))
        (.obj (JObj.cons (str ("css")) (.str (str ("opacity: 0.5;"))) .nil))
        .nil)))
    .nil

/-- C8 (amended): for every truthy brand whose CSS-variable section
renders without throwing (no `null`/`undefined` category value - the
unguarded `Object.entries(variables)` otherwise throws a TypeError that
the catch converts into an error envelope, as the second conjunct
proves), and every requested component list whose members are truthy in
`cssRules` (the spec's own invariant), the successful `generate_css`
output contains a `:root \x7b` block followed, in caller-specified
order, by one `.brand-component \x7b` block per requested component,
each followed by a `.brand-component:hover \x7b` block exactly when the
component's `hover` value is truthy: when `rules.hover` is falsy -
absent, or present but `null`/`false`/`0`/empty -
`generateComponentCSS` emits the main block alone and nothing after it
(third conjunct, for any rule tree whose entries do not throw). -/
theorem claim8_amended_generate_css_structure :
    (∀ (brands cssRules : JObj) (brand : JStr) (ic : Option (List JStr))
        (now : JStr),
      jsTruthy (jsIndex brands brand) = true →
      (cssVarsSection (jget (jsIndex brands brand) (str ("css")))).isSome
        = true →
      (∀ c ∈ ic.getD defaultComponents,
        jsTruthy (jsIndex cssRules c) = true) →
      (generate_css_result brands cssRules brand ic now).isError = false ∧
      ∃ cssText,
        (generate_css_result brands cssRules brand ic now).text =
          .cssOut cssText ∧
        containsInOrder (rootOpen ::
          ((ic.getD defaultComponents).flatMap fun c =>
            compSelOpen brand c ::
              (if jsTruthy (jget (jsIndex cssRules c) (str ("hover"))) then
                [hoverSelOpen brand c] else []))) cssText) ∧
    (∀ (brands cssRules : JObj) (brand : JStr) (ic : Option (List JStr))
        (now : JStr),
      jsTruthy (jsIndex brands brand) = true →
      generate_css_text (jsIndex brands brand) now cssRules brand
        (ic.getD defaultComponents) = none →
      generate_css_result brands cssRules brand ic now =
        ⟨.errException, true⟩) ∧
    ∀ (component : JStr) (rules : JVal) (brandPrefix : JStr),
      jsTruthy (jget rules (str ("hover"))) = false →
      (jsEntriesE rules).isSome = true →
      generateComponentCSS component rules brandPrefix =
        some (compSelOpen brandPrefix component ++
          componentBody (jsEntries rules) ++ str ("\x7d\n")) := by
  refine ⟨?_, ?_, ?_⟩
  · intro brands cssRules brand ic now hbr hvars hcomps
    have hne : ¬ jsTruthy (jsIndex brands brand) = false := by simp [hbr]
    obtain ⟨v, hv⟩ := Option.isSome_iff_exists.mp hvars
    obtain ⟨w, hw, hveq⟩ : ∃ w, (if jsTruthy (jget (jsIndex brands brand)
          (str ("css"))) then
          varLinesE (jsEntries (jget (jsIndex brands brand) (str ("css"))))
        else some []) = some w ∧
        v = str ("/* ========== CSS Variables ========== */\n") ++ rootOpen ++
          w ++ str ("\x7d\n\n") := by
      unfold cssVarsSection at hv
      split at hv
      · exact absurd hv (by simp)
      · next w hsome =>
        refine ⟨w, hsome, ?_⟩
        simp only [Option.some.injEq] at hv
        exact hv.symm
    obtain ⟨S, hS, hcont⟩ :=
      componentsSectionE_contains cssRules brand (ic.getD defaultComponents)
        hcomps
    simp only [generate_css_result]
    rw [if_neg hne]
    have htext : generate_css_text (jsIndex brands brand) now cssRules brand
        (ic.getD defaultComponents) =
        some (str ("/* ") ++
          jsToString (jget (jsIndex brands brand) (str ("name"))) ++
          str (" - Complete Stylesheet */\n/* Generated: ") ++ now ++
          str (" */\n\n") ++ v ++ S) := by
      unfold generate_css_text
      rw [hv, hS]
    rw [htext]
    refine ⟨rfl, _, rfl, ?_⟩
    rw [hveq]
    refine ⟨str ("/* ") ++
        (jsToString (jget (jsIndex brands brand) (str ("name"))) ++
          (str (" - Complete Stylesheet */\n/* Generated: ") ++ (now ++
            (str (" */\n\n") ++
              str ("/* ========== CSS Variables ========== */\n"))))),
      w ++ (str ("\x7d\n\n") ++ S), by simp, ?_⟩
    exact containsInOrder_pre (containsInOrder_pre hcont (str ("\x7d\n\n"))) w
  · intro brands cssRules brand ic now hbr hnone
    have hne : ¬ jsTruthy (jsIndex brands brand) = false := by simp [hbr]
    simp only [generate_css_result]
    rw [if_neg hne, hnone]
  · intro component rules brandPrefix h hsome
    obtain ⟨entries, he⟩ := Option.isSome_iff_exists.mp hsome
    unfold generateComponentCSS
    rw [he, if_neg (by simp [h])]
    have : jsEntries rules = entries := by
      unfold jsEntries
      rw [he]
      rfl
    rw [this]
    simp

/-- Witness for C8 on a one-brand, one-component document with one CSS
category and a hover rule. -/
theorem claim8_witness :
    jsTruthy (jsIndex sampleBrands (str ("pmc"))) = true ∧
    (cssVarsSection (jget (jsIndex sampleBrands (str ("pmc")))
      (str ("css")))).isSome = true ∧
    (∀ c ∈ (some [str ("buttons")] : Option (List JStr)).getD
        defaultComponents,
      jsTruthy (jsIndex sampleCssRules c) = true) ∧
    ((generate_css_result sampleBrands sampleCssRules (str ("pmc"))
        (some [str ("buttons")]) (str ("T"))).isError = false ∧
      ∃ cssText,
        (generate_css_result sampleBrands sampleCssRules (str ("pmc"))
          (some [str ("buttons")]) (str ("T"))).text = .cssOut cssText ∧
        containsInOrder (rootOpen ::
          (((some [str ("buttons")] : Option (List JStr)).getD
              defaultComponents).flatMap fun c =>
            compSelOpen (str ("pmc")) c ::
              (if jsTruthy (jget (jsIndex sampleCssRules c) (str ("hover")))
                then [hoverSelOpen (str ("pmc")) c] else []))) cssText) :=
  ⟨by decide, by decide, by decide,
    claim8_amended_generate_css_structure.1 sampleBrands sampleCssRules
      (str ("pmc")) (some [str ("buttons")]) (str ("T")) (by decide)
      (by decide) (by decide)⟩
